import Mathlib

/-!
# Verification of the ZIM tagged-text extraction core (`src/main.py`)

Shallow embedding of the pure extraction logic of the service:
numeric/date normalization, AP-number parsing, format detection,
the employee extractor, the assignment resolver, and the
work-package assembly of the feasibility-study parser.

Conventions of the embedding:
* Python `str` is modelled as `List Char` internally, with `String`
  wrappers at the API boundary.
* Python `float` is modelled as `ℚ`; `float(s)` is modelled by
  `pyFloat : List Char → Option ℚ` which accepts the decimal-literal
  grammar (optional sign, digits with at most one decimal point,
  optional exponent, surrounding ASCII whitespace).  The special
  spellings `inf`/`nan`/digit-group underscores and non-ASCII digits
  accepted by CPython are outside the documents' domain and are not
  modelled; `round(x, 2)` is modelled as exact round-half-even at two
  decimal places.
* Code that can raise (`int(float(s))` outside any `try`) is modelled
  in `Option`: `none` is an escaped Python exception.
* Python `dict` (insertion ordered) is modelled as an association list.
-/

attribute [local semireducible] Rat.mul Rat.add Rat.sub Rat.inv Rat.ofScientific

set_option maxRecDepth 10000

namespace ZimParser

/-- ASCII whitespace stripped by Python's `str.strip()` (non-ASCII
whitespace is outside the documents' domain and not modelled). -/
def isPySpace (c : Char) : Bool :=
  c == ' ' || c == '\t' || c == '\n' || c == '\r' || c == '\x0b' || c == '\x0c'

/-- `str.strip()`. -/
def pyStrip (l : List Char) : List Char :=
  ((l.dropWhile isPySpace).reverse.dropWhile isPySpace).reverse

/-- `str.rstrip(c)` for a single character. -/
def pyRStrip (ch : Char) (l : List Char) : List Char :=
  (l.reverse.dropWhile (· == ch)).reverse

/-- Case-insensitive character comparison, as used by `re.IGNORECASE`
on the ASCII tag literals of the source. -/
def ciEq (ci : Bool) (a b : Char) : Bool :=
  if ci then a.toLower == b.toLower else a == b

/-- Does `pat` start `l` (optionally case-insensitively)? -/
def ciPref (ci : Bool) : List Char → List Char → Bool
  | [], _ => true
  | _ :: _, [] => false
  | p :: ps, c :: cs => ciEq ci p c && ciPref ci ps cs

/-- Python's case-sensitive substring test `pat in s`. -/
def containsSub (pat : List Char) : List Char → Bool
  | [] => ciPref false pat []
  | c :: cs => ciPref false pat (c :: cs) || containsSub pat cs

/-- `str.split(sep)` for a single-character separator. -/
def splitCh (sep : Char) : List Char → List (List Char)
  | [] => [[]]
  | c :: cs =>
    let r := splitCh sep cs
    if c == sep then [] :: r
    else match r with
      | [] => [[c]]
      | h :: t => (c :: h) :: t

/-- `str.replace(pat, rep)` (leftmost, non-overlapping); `fuel`-driven
structural recursion, `pat` nonempty at every call site. -/
def pyReplaceAux (pat rep : List Char) : Nat → List Char → List Char
  | 0, l => l
  | _ + 1, [] => []
  | fuel + 1, c :: cs =>
    if ciPref false pat (c :: cs) then
      rep ++ pyReplaceAux pat rep fuel ((c :: cs).drop pat.length)
    else
      c :: pyReplaceAux pat rep fuel cs

def pyReplace (l pat rep : List Char) : List Char :=
  pyReplaceAux pat rep (l.length + 1) l

/-- `str.rfind(c)`: index of the last occurrence, `-1` if absent. -/
def rfindIdx (l : List Char) (ch : Char) : Int :=
  match l.reverse.findIdx? (· == ch) with
  | some i => (l.length : Int) - 1 - i
  | none => -1

/-- Value of a list of decimal digits. -/
def natOfDigits (l : List Char) : Nat :=
  l.foldl (fun a c => a * 10 + (c.toNat - 48)) 0

def allDigits (l : List Char) : Bool := l.all (fun c => c.isDigit)

/-- Exponent part of a float literal: `sign? digits+`. -/
def pyExpVal (l : List Char) : Option Int :=
  match l with
  | '+' :: r => if r ≠ [] && allDigits r then some (natOfDigits r) else none
  | '-' :: r => if r ≠ [] && allDigits r then some (-(natOfDigits r : Int)) else none
  | r => if r ≠ [] && allDigits r then some (natOfDigits r) else none

/-- Mantissa of a float literal: `digits* [. digits*]`, at least one
digit overall. -/
def pyMantVal (l : List Char) : Option ℚ :=
  let ip := l.takeWhile (fun c => c ≠ '.')
  let rest := l.drop ip.length
  match rest with
  | [] => if ip ≠ [] && allDigits ip then some (natOfDigits ip) else none
  | _ :: fp =>
    if (ip ≠ [] || fp ≠ []) && allDigits ip && allDigits fp then
      some ((natOfDigits ip : ℚ) + (natOfDigits fp : ℚ) / (10 : ℚ) ^ fp.length)
    else none

/-- `float(s)` on the decimal-literal grammar: `none` models a raised
`ValueError`. -/
def pyFloat (l : List Char) : Option ℚ :=
  let t := pyStrip l
  let (sgn, body) :=
    match t with
    | '+' :: r => ((1 : ℚ), r)
    | '-' :: r => ((-1 : ℚ), r)
    | r => ((1 : ℚ), r)
  let mant := body.takeWhile (fun c => c ≠ 'e' && c ≠ 'E')
  let rest := body.drop mant.length
  match pyMantVal mant with
  | none => none
  | some m =>
    match rest with
    | [] => some (sgn * m)
    | _ :: ex =>
      match pyExpVal ex with
      | none => none
      | some e => some (sgn * m * (10 : ℚ) ^ e)

/-- `int(s)` string parsing: `sign? digits+` with surrounding
whitespace. -/
def pyIntParse (l : List Char) : Option Int :=
  let t := pyStrip l
  match t with
  | '+' :: r => if r ≠ [] && allDigits r then some (natOfDigits r) else none
  | '-' :: r => if r ≠ [] && allDigits r then some (-(natOfDigits r : Int)) else none
  | r => if r ≠ [] && allDigits r then some (natOfDigits r) else none

/-- `int(x)` on a float: truncation toward zero. -/
def pyTrunc (q : ℚ) : Int :=
  if q < 0 then -(Int.floor (-q)) else Int.floor q

/-- `int(float(s))`: `none` models a raised `ValueError`. -/
def pyIntFloat (l : List Char) : Option Int :=
  (pyFloat l).map pyTrunc

/-- Python `round(x, 2)`: round-half-even at two decimal places
(exact, on the rational model). -/
def roundHalfEven (q : ℚ) : Int :=
  let f := Int.floor q
  let r := q - f
  if r < 1/2 then f
  else if 1/2 < r then f + 1
  else if f % 2 = 0 then f else f + 1

def round2 (q : ℚ) : ℚ := (roundHalfEven (q * 100) : ℚ) / 100

/-! ## Numeric and date normalizers (`src/main.py` lines 62-132) -/

/-- `parse_float_value` (lines 62-77): German/international decimal
disambiguation; total, defaulting to `0.0`. -/
def parse_float_value (value : String) : ℚ :=
  if value = "" then 0 else
  let cleaned := pyStrip value.toList
  let cleaned :=
    if cleaned.contains ',' && cleaned.contains '.' then
      if rfindIdx cleaned ',' > rfindIdx cleaned '.' then
        pyReplace (pyReplace cleaned ['.'] []) [','] ['.']
      else
        pyReplace cleaned [','] []
    else if cleaned.contains ',' then
      pyReplace cleaned [','] ['.']
    else cleaned
  (pyFloat cleaned).getD 0

/-- `parse_ap_nummer` (lines 93-107): `"main[.sub]"` to a pair of
integers; total, defaulting to `(0, 0)` on any parse error. -/
def parse_ap_nummer (lfd : String) : Int × Int :=
  if lfd = "" then (0, 0) else
  let l := pyRStrip '.' (pyStrip lfd.toList)
  if l.contains '.' then
    let parts := splitCh '.' l
    match pyIntParse (parts.getD 0 []) with
    | none => (0, 0)
    | some a =>
      if parts.length > 1 && parts.getD 1 [] ≠ [] then
        match pyIntParse (parts.getD 1 []) with
        | none => (0, 0)
        | some b => (a, b)
      else (a, 0)
  else
    match pyIntFloat l with
    | none => (0, 0)
    | some n => (n, 0)

/-- `detect_format` (lines 110-117): substring sniffing of schema
markers. -/
def detect_format (xfa_text : String) : String :=
  let t := xfa_text.toList
  if containsSub "Antrag_DS".toList t || containsSub "<thema>".toList t then
    "durchfuehrbarkeitsstudie"
  else if containsSub "cg_VMS_".toList t || containsSub "cg_case_".toList t then
    "standard_zim"
  else
    "unbekannt"

/-- The regex test `^\d{4}-\d{2}-\d{2}` of `parse_german_date`. -/
def isoPrefixTest (l : List Char) : Bool :=
  match l with
  | a :: b :: c :: d :: '-' :: e :: f :: '-' :: g :: h :: _ =>
    allDigits [a, b, c, d] && allDigits [e, f] && allDigits [g, h]
  | _ => false

/-- One group `(\d{1,2})\.` of the German date regex: a greedy 1-2
digit group followed by a literal dot (the regex's backtracking
collapses to: two digits then a dot, else one digit then a dot).
In the one divergent corner — a digit followed by two dots — this
helper accepts the one-digit group where the regex engine fails
outright, but the next group of `germanPrefixMatch` then starts at a
dot and fails, so the composed match is identical. -/
def grp12 : List Char → Option (List Char × List Char)
  | a :: b :: c :: r =>
    if c = '.' ∧ a.isDigit ∧ b.isDigit then some ([a, b], r)
    else if b = '.' ∧ a.isDigit then some ([a], c :: r)
    else none
  | [a, b] => if b = '.' ∧ a.isDigit then some ([a], []) else none
  | _ => none

/-- The prefix match `^(\d{1,2})\.(\d{1,2})\.(\d{4})`: greedy 1-2
digit groups, a 4-digit year, the remainder ignored.  Returns the
three captured groups. -/
def germanPrefixMatch (l : List Char) : Option (List Char × List Char × List Char) :=
  match grp12 l with
  | none => none
  | some (dd, r1) =>
    match grp12 r1 with
    | none => none
    | some (mm, r2) =>
      match r2 with
      | a :: b :: c :: d :: _ =>
        if allDigits [a, b, c, d] then some (dd, mm, [a, b, c, d]) else none
      | _ => none

/-- `str.zfill(2)`. -/
def zfill2 (l : List Char) : List Char :=
  if l.length < 2 then List.replicate (2 - l.length) '0' ++ l else l

/-- `parse_german_date` (lines 120-132): `DD.MM.YYYY` prefix to ISO,
ISO prefix to its first 10 characters, otherwise the stripped input. -/
def parse_german_date (date_str : String) : String :=
  if date_str = "" then "" else
  let d := pyStrip date_str.toList
  if isoPrefixTest d then (d.take 10).asString
  else match germanPrefixMatch d with
    | some (dd, mm, yyyy) =>
      (yyyy ++ '-' :: zfill2 mm ++ '-' :: zfill2 dd).asString
    | none => d.asString

/-! ## Tag-value extraction (`extract_value`, `extract_all_values`)

The source extracts fields with `re` patterns of three fixed shapes:
`lit([^<]+)`, `lit([^<]+)litClose` and `lit[^>]*>([^<]+)` via
`re.search` (flags `IGNORECASE|DOTALL`), and `<tag>([^<]*)</tag>` via
`re.findall`.  For these shapes the backtracking semantics collapse
to: scan start positions left to right; at a position the literal
must match, the capture is the maximal run of non-`<` characters,
and the closing literal must follow it (a shorter capture is always
followed by a non-`<` character, so the engine cannot backtrack into
the capture). -/

/-- Match `openL([^<]±)closeL` exactly at the head of `l`; on success
returns the raw capture and the text after the closing literal. -/
def matchTagAt (ci : Bool) (openL closeL : List Char) (allowEmpty : Bool)
    (l : List Char) : Option (List Char × List Char) :=
  if ciPref ci openL l then
    let r := l.drop openL.length
    let cap := r.takeWhile (fun c => c ≠ '<')
    let rest := r.drop cap.length
    if !allowEmpty && cap.isEmpty then none
    else if ciPref ci closeL rest then some (cap, rest.drop closeL.length)
    else none
  else none

/-- Match `openL[^>]*>([^<]+)` exactly at the head of `l`. -/
def matchSkipGtAt (ci : Bool) (openL : List Char) (l : List Char) :
    Option (List Char × List Char) :=
  if ciPref ci openL l then
    let r := l.drop openL.length
    let sk := r.takeWhile (fun c => c ≠ '>')
    match r.drop sk.length with
    | '>' :: r2 =>
      let cap := r2.takeWhile (fun c => c ≠ '<')
      if cap.isEmpty then none else some (cap, r2.drop cap.length)
    | _ => none
  else none

/-- First position (scanning left to right) where `m` matches;
`re.search` over the tail of the text. -/
def searchAux (m : List Char → Option (List Char × List Char)) :
    Nat → List Char → Option (List Char × List Char)
  | 0, _ => none
  | _ + 1, [] => m []
  | fuel + 1, c :: cs =>
    match m (c :: cs) with
    | some r => some r
    | none => searchAux m fuel cs

def searchM (m : List Char → Option (List Char × List Char)) (l : List Char) :
    Option (List Char × List Char) :=
  searchAux m (l.length + 1) l

/-- `extract_value` (lines 56-59) for a pattern `openL([^<]+)closeL`
(empty `closeL` for the patterns without a closing literal): the
stripped first capture, `''` when absent. -/
def extract_value (ci : Bool) (openL closeL : String) (text : List Char) : String :=
  match searchM (matchTagAt ci openL.toList closeL.toList false) text with
  | some (cap, _) => (pyStrip cap).asString
  | none => ""

/-- `extract_value` for a pattern `openL[^>]*>([^<]+)`. -/
def extract_value_skipGt (openL : String) (text : List Char) : String :=
  match searchM (matchSkipGtAt true openL.toList) text with
  | some (cap, _) => (pyStrip cap).asString
  | none => ""

/-- `extract_float` (lines 80-83). -/
def extract_float_skipGt (openL : String) (text : List Char) : ℚ :=
  parse_float_value (extract_value_skipGt openL text)

/-- All raw captures of `re.findall` for `<tag>([^<]*)</tag>`,
non-overlapping, scanning left to right. -/
def findAllAux (ci : Bool) (openL closeL : List Char) :
    Nat → List Char → List (List Char)
  | 0, _ => []
  | _ + 1, [] => []
  | fuel + 1, c :: cs =>
    match matchTagAt ci openL closeL true (c :: cs) with
    | some (cap, rest) => cap :: findAllAux ci openL closeL fuel rest
    | none => findAllAux ci openL closeL fuel cs

/-- `extract_all_values` (lines 86-90): stripped nonempty captures of
`<tag>([^<]*)</tag>`, in document order. -/
def extract_all_values (tag : String) (text : List Char) : List String :=
  ((findAllAux true ("<" ++ tag ++ ">").toList ("</" ++ tag ++ ">").toList
      (text.length + 1) text).map (fun m => (pyStrip m).asString)).filter
    (fun s => s ≠ "")

/-- One match of the three-tag block pattern
`o1([^<]*)c1.*?o2([^<]*)c2.*?o3([^<]*)c3` (DOTALL) anchored at the
head of `l`: the lazy gaps take the first subsequent tag match. -/
def matchTriple (ci : Bool) (o1 c1 o2 c2 o3 c3 : List Char) (l : List Char) :
    Option ((List Char × List Char × List Char) × List Char) :=
  match matchTagAt ci o1 c1 true l with
  | none => none
  | some (cap1, r1) =>
    match searchM (matchTagAt ci o2 c2 true) r1 with
    | none => none
    | some (cap2, r2) =>
      match searchM (matchTagAt ci o3 c3 true) r2 with
      | none => none
      | some (cap3, r3) => some ((cap1, cap2, cap3), r3)

/-- `re.findall` of the three-tag block pattern: non-overlapping
matches scanning left to right.  (If the trailing tags cannot be
found anywhere after an anchor match, no later anchor can complete a
match either, so advancing one character is the exact `re` search
order.) -/
def findTriplesAux (ci : Bool) (o1 c1 o2 c2 o3 c3 : List Char) :
    Nat → List Char → List (List Char × List Char × List Char)
  | 0, _ => []
  | _ + 1, [] => []
  | fuel + 1, c :: cs =>
    match matchTriple ci o1 c1 o2 c2 o3 c3 (c :: cs) with
    | some (caps, rest) => caps :: findTriplesAux ci o1 c1 o2 c2 o3 c3 fuel rest
    | none => findTriplesAux ci o1 c1 o2 c2 o3 c3 fuel cs

def findTriples (ci : Bool) (o1 c1 o2 c2 o3 c3 : String) (l : List Char) :
    List (List Char × List Char × List Char) :=
  findTriplesAux ci o1.toList c1.toList o2.toList c2.toList o3.toList c3.toList
    (l.length + 1) l

/-- `re.findall` for the lazy block pattern `<open>(.*?)</close>`
(DOTALL): each match captures up to the first closing literal,
non-overlapping. -/
def splitAtLit (lit : List Char) : Nat → List Char → List Char →
    Option (List Char × List Char)
  | 0, _, _ => none
  | _ + 1, acc, [] => if ciPref false lit [] then some (acc.reverse, []) else none
  | fuel + 1, acc, c :: cs =>
    if ciPref false lit (c :: cs) then some (acc.reverse, (c :: cs).drop lit.length)
    else splitAtLit lit fuel (c :: acc) cs

def findLazyAux (openL closeL : List Char) : Nat → List Char → List (List Char)
  | 0, _ => []
  | _ + 1, [] => []
  | fuel + 1, c :: cs =>
    if ciPref false openL (c :: cs) then
      match splitAtLit closeL (cs.length + 1) [] ((c :: cs).drop openL.length) with
      | some (cap, rest) => cap :: findLazyAux openL closeL fuel rest
      | none => findLazyAux openL closeL fuel cs
    else findLazyAux openL closeL fuel cs

def findLazyBlocks (openL closeL : String) (l : List Char) : List (List Char) :=
  findLazyAux openL.toList closeL.toList (l.length + 1) l

/-! ## Assignment resolver (`extract_ma_zuordnungen_ds`, lines 200-284) -/

/-- One employee-to-work-package allocation (`{'ma_nr': .., 'pm': ..}`). -/
structure Assignment where
  ma_nr : Int
  pm : ℚ
  deriving DecidableEq, Repr

/-- The result `dict` `{ap_code: [assignment, ...]}`, insertion
ordered. -/
abbrev ZuDict := List (String × List Assignment)

/-- `zuordnungen[ap_code].append(a)`, creating the key at the end of
the dict when absent (Python dict insertion order). -/
def dictAppend (d : ZuDict) (k : String) (a : Assignment) : ZuDict :=
  match d with
  | [] => [(k, [a])]
  | (k', l) :: rest =>
    if k' = k then (k', l ++ [a]) :: rest else (k', l) :: dictAppend rest k a

/-- The semicolon-separated package list of a grouped block:
`[ap.strip() for ap in aps.split(';') if ap.strip()]`, with the
technical variant additionally applying `.rstrip('.')`. -/
def apListOf (rstripDot : Bool) (aps : List Char) : List (List Char) :=
  let base := ((splitCh ';' aps).map pyStrip).filter (fun s => s ≠ [])
  if rstripDot then base.map (pyRStrip '.') else base

/-- Contribution of one grouped block `(ma_nr, pm_gesamt, aps)` with
`ma_nr ≠ 0`: the total is divided by the package count and rounded to
two decimals, one entry per listed package. -/
def block10B_contrib (rstripDot : Bool) (ma : Int) (pm_gesamt aps : List Char) :
    List (String × Assignment) :=
  let ap_list := apListOf rstripDot aps
  let pm_total := parse_float_value pm_gesamt.asString
  let pm_per_ap := if ap_list ≠ [] then pm_total / (ap_list.length : ℚ) else 0
  ap_list.map (fun ap => (("AP" ++ ap.asString : String), ⟨ma, round2 pm_per_ap⟩))

/-- The loop over grouped blocks (lines 216-235 and 245-261):
`none` models the exception of `int(float(ma_nr))` on a nonempty
non-numeric ordinal. -/
def maBlocksFold (rstripDot : Bool) :
    ZuDict → List (List Char × List Char × List Char) → Option ZuDict
  | d, [] => some d
  | d, (ma_s, pm_s, aps) :: rest => do
    let ma ← if ma_s = [] then pure (0 : Int) else pyIntFloat ma_s
    if ma = 0 then maBlocksFold rstripDot d rest
    else
      maBlocksFold rstripDot
        ((block10B_contrib rstripDot ma pm_s aps).foldl
          (fun d p => dictAppend d p.1 p.2) d) rest

/-- The fallback loop over direct rows (lines 272-282). -/
def zeileFold : ZuDict → List (List Char × List Char × List Char) → Option ZuDict
  | d, [] => some d
  | d, (ap_nr, ma_s, pm) :: rest => do
    let ma ← if ma_s = [] then pure (0 : Int) else pyIntFloat ma_s
    if ma = 0 then zeileFold d rest
    else
      zeileFold
        (dictAppend d ("AP" ++ (pyStrip ap_nr).asString)
          ⟨ma, parse_float_value pm.asString⟩) rest

/-- `extract_ma_zuordnungen_ds` (lines 200-284): grouped non-technical
blocks, then grouped technical blocks, then — only when those two
yielded an empty dict — direct rows. -/
def extract_ma_zuordnungen_ds (xfa_text : String) : Option ZuDict := do
  let t := xfa_text.toList
  let blocks := findTriples false "<MA_10B>" "</MA_10B>" "<pm_10B>" "</pm_10B>"
    "<AP_10B>" "</AP_10B>" t
  let d1 ← maBlocksFold false [] blocks
  let blocksTech := findTriples false "<MA_10B_techn>" "</MA_10B_techn>"
    "<pm_10B_techn>" "</pm_10B_techn>" "<AP_10B_techn>" "</AP_10B_techn>" t
  let d2 ← maBlocksFold true d1 blocksTech
  let zeile := findTriples false "<Arbeitspaket_Nr>" "</Arbeitspaket_Nr>"
    "<MA_Nr>" "</MA_Nr>" "<pm>" "</pm>" t
  if zeile ≠ [] ∧ d2 = [] then zeileFold d2 zeile else pure d2

/-! ## Employee extractor (`extract_mitarbeiter_ds`, lines 139-193) -/

/-- One employee record of Anlage 6.1. -/
structure MA where
  ma_nr : Int
  nachname : String
  vorname : String
  name_komplett : String
  geburtsdatum : String
  qualifikation : String
  funktion : String
  angestellt_seit : String
  wochenstunden : ℚ
  jahresbrutto : ℚ
  monatsbrutto : ℚ
  stundensatz : ℚ
  teilzeitfaktor : ℚ
  deriving DecidableEq, Repr

/-- The record literal of lines 166-180, given the resolved `ma_nr`. -/
def mkMA (nr : Int) (block : List Char) : MA :=
  let name := extract_value true "<name>" "</name>" block
  let vname := extract_value true "<vname>" "</vname>" block
  let geb_gf := extract_value true "<geb_gf>" "</geb_gf>" block
  let geb := if geb_gf ≠ "" then geb_gf else extract_value true "<geb>" "</geb>" block
  let als := extract_value true "<als>" "</als>" block
  let tz := parse_float_value (extract_value true "<tz_faktor>" "</tz_faktor>" block)
  { ma_nr := nr
    nachname := name
    vorname := vname
    name_komplett := vname ++ " " ++ name
    geburtsdatum := parse_german_date geb
    qualifikation := extract_value true "<quali>" "</quali>" block
    funktion := if als ≠ "" then als
      else extract_value true "<statisch><als>" "</als>" block
    angestellt_seit :=
      parse_german_date (extract_value true "<ang_seit>" "</ang_seit>" block)
    wochenstunden := parse_float_value (extract_value true "<wo_std>" "</wo_std>" block)
    jahresbrutto :=
      parse_float_value (extract_value true "<jahresbrutto>" "</jahresbrutto>" block)
    monatsbrutto :=
      parse_float_value (extract_value true "<monats_brutto>" "</monats_brutto>" block)
    stundensatz :=
      parse_float_value (extract_value true "<std_satz>" "</std_satz>" block)
    teilzeitfaktor := if tz = 0 then 1 else tz }

/-- Lines 183-185: fill the hourly rate from annual pay and weekly
hours (`jahresstunden = wochenstunden * 52`), rounded to two
decimals. -/
def deriveStundensatz (ma : MA) : MA :=
  if ma.jahresbrutto > 0 ∧ ma.stundensatz = 0 ∧ ma.wochenstunden > 0 then
    { ma with stundensatz := round2 (ma.jahresbrutto / (ma.wochenstunden * 52)) }
  else ma

/-- Lines 187-188: fill the monthly pay from annual pay, rounded to
two decimals. -/
def deriveMonatsbrutto (ma : MA) : MA :=
  if ma.monatsbrutto = 0 ∧ ma.jahresbrutto > 0 then
    { ma with monatsbrutto := round2 (ma.jahresbrutto / 12) }
  else ma

/-- The derived-field computations of lines 183-188, in source
order. -/
def deriveMA (ma : MA) : MA := deriveMonatsbrutto (deriveStundensatz ma)

/-- The `<lfd>` value of a block, as read at line 153. -/
def lfdValue (block : List Char) : String :=
  extract_value true "<lfd>" "</lfd>" block

/-- Resolved employee number and full record of one retained block
(lines 153-188): `none` models the exception of `int(float(lfd))` on
a nonempty non-numeric `lfd` value. -/
def buildMA (idx : Nat) (block : List Char) : Option MA := do
  let lfd := lfdValue block
  let nr ← if lfd ≠ "" then pyIntFloat lfd.toList else pure ((idx : Int) + 1)
  pure (deriveMA (mkMA nr block))

/-- The loop of lines 148-191 over enumerated `Page11` blocks. -/
def mitarbeiterFold : List (Nat × List Char) → Option (List MA)
  | [] => some []
  | (idx, block) :: rest =>
    if containsSub "<lfd>".toList block then
      let name := extract_value true "<name>" "</name>" block
      let vname := extract_value true "<vname>" "</vname>" block
      if name = "" ∨ vname = "" then mitarbeiterFold rest
      else do
        let ma ← buildMA idx block
        let tl ← mitarbeiterFold rest
        pure (ma :: tl)
    else mitarbeiterFold rest

/-- The `Page11` blocks of the text (line 144). -/
def page11Blocks (xfa_text : String) : List (List Char) :=
  findLazyBlocks "<Page11>" "</Page11>" xfa_text.toList

/-- `extract_mitarbeiter_ds` (lines 139-193). -/
def extract_mitarbeiter_ds (xfa_text : String) : Option (List MA) :=
  mitarbeiterFold (page11Blocks xfa_text).enum

/-! ## Work-package assembly and the two variant parsers
(`parse_durchfuehrbarkeitsstudie` lines 291-462,
`parse_standard_zim` lines 469-514, dispatch lines 564-577) -/

/-- One work package.  The always-`None` fields `start_monat` and
`ende_monat` of the source dict are omitted. -/
structure AP where
  ap_nummer : Int
  ap_sub_nummer : Int
  ap_code : String
  name : String
  start_datum : Option String
  ende_datum : Option String
  gesamt_pm : ℚ
  is_technical : Bool
  mitarbeiter_zuordnungen : List Assignment
  deriving DecidableEq, Repr

/-- `ma_zuordnungen.get(ap_code, [])`. -/
def dictGet (d : ZuDict) (k : String) : List Assignment :=
  ((d.find? (fun p => p.1 == k)).map Prod.snd).getD []

/-- The non-technical loop of lines 379-411: positional zip over the
extracted value lists with the source's defaults (`str(i+1)` for a
missing number), keeping candidates whose name is longer than two
characters; an unparsable or zero main number falls back to the
1-based index. -/
def nonTechAPs (zu : ZuDict) (nrs names pms vons biss : List String) : List AP :=
  ((List.range (max nrs.length names.length)).map (fun i =>
      (i, nrs.getD i (toString (i + 1)), names.getD i "", pms.getD i "0",
        vons.getD i "", biss.getD i ""))).filterMap
    (fun c =>
      match c with
      | (i, ap_nr_str, ap_name, pm_str, von, bis) =>
        if ap_name ≠ "" ∧ ap_name.length > 2 then
          let hu := parse_ap_nummer ap_nr_str
          let haupt := if hu.1 = 0 then ((i : Int) + 1) else hu.1
          let ap_code := "AP" ++ (pyStrip ap_nr_str.toList).asString
          some
            { ap_nummer := haupt
              ap_sub_nummer := hu.2
              ap_code := ap_code
              name := ap_name
              start_datum := some (parse_german_date von)
              ende_datum := some (parse_german_date bis)
              gesamt_pm := parse_float_value pm_str
              is_technical := false
              mitarbeiter_zuordnungen := dictGet zu ap_code }
        else none)

/-- One step of the technical loop of lines 420-451: the candidate is
dropped when its display code already occurs in the accumulated list
or its main number is not positive. -/
def techStep (zu : ZuDict) (acc : List AP) (c : String × String × String) :
    List AP :=
  match c with
  | (ap_nr_str, ap_name, pm_str) =>
    if ap_name ≠ "" ∧ ap_name.length > 2 ∧ ap_nr_str ≠ "" then
      let clean_nr := (pyRStrip '.' ap_nr_str.toList).asString
      let hu := parse_ap_nummer clean_nr
      let ap_code := "AP" ++ clean_nr
      if ¬ acc.any (fun ap => ap.ap_code == ap_code) ∧ hu.1 > 0 then
        acc ++
          [{ ap_nummer := hu.1
             ap_sub_nummer := hu.2
             ap_code := ap_code
             name := ap_name
             start_datum := none
             ende_datum := none
             gesamt_pm := parse_float_value pm_str
             is_technical := true
             mitarbeiter_zuordnungen := dictGet zu ap_code }]
      else acc
    else acc

/-- The technical loop of lines 420-451 (missing `pm` defaults to
`'0'`, missing number to `''`). -/
def techAPs (zu : ZuDict) (acc : List AP) (nrs names pms : List String) : List AP :=
  ((List.range (max nrs.length names.length)).map (fun i =>
      (nrs.getD i "", names.getD i "", pms.getD i "0"))).foldl (techStep zu) acc

/-- The sort key comparison of line 454: ascending by
`(ap_nummer, ap_sub_nummer or 0)`; `or 0` is the identity on the
integer sub-number.  `List.insertionSort` with a reflexive order is
stable, like Python's `list.sort`. -/
def apKeyLe (a b : AP) : Prop :=
  a.ap_nummer < b.ap_nummer ∨
    (a.ap_nummer = b.ap_nummer ∧ a.ap_sub_nummer ≤ b.ap_sub_nummer)

instance : DecidableRel apKeyLe := fun a b => by
  unfold apKeyLe; infer_instance

/-- Work-package list of the feasibility-study parser (lines
368-454): non-technical pass, technical pass with deduplication by
display code, final stable sort. -/
def dsArbeitspakete (zu : ZuDict) (text : List Char) : List AP :=
  let nontech := nonTechAPs zu
    (extract_all_values "Arbeitspaket_Nr" text)
    (extract_all_values "Arbeitspaket" text)
    (extract_all_values "pm" text)
    (extract_all_values "RealisierungVON" text)
    (extract_all_values "RealisierungBIS" text)
  let merged := techAPs zu nontech
    (extract_all_values "Arbeitspaket_Nr_techn" text)
    (extract_all_values "Arbeitspaket_techn" text)
    (extract_all_values "pm_techn" text)
  merged.insertionSort apKeyLe

/-- Result record of a variant parser.  Of the source's result dict,
the fields that no claim mentions (applicant, budget figures, dates,
runtime) are omitted; the fields below are embedded faithfully. -/
structure ParseResult where
  projekt_name : String
  foerderquote : ℚ
  mitarbeiter : List MA
  arbeitspakete : List AP
  format : String
  deriving DecidableEq, Repr

/-- The newline normalization of line 297. -/
def normalizeDS (xfa_text : String) : String :=
  (pyReplace (pyReplace xfa_text.toList "\n>".toList ">".toList)
    ">\n".toList ">".toList).asString

/-- The funding-rate field of lines 308: `extract_float(...) or 50.0`
replaces a falsy (zero) extraction by the default `50.0`. -/
def dsFoerderquote (text : List Char) : ℚ :=
  let q := extract_float_skipGt "<foerdersatz" text
  if q = 0 then 50 else q

/-- `parse_durchfuehrbarkeitsstudie` (lines 291-462), restricted to
the embedded result fields; `none` models an exception escaping from
the employee or assignment extraction. -/
def parse_durchfuehrbarkeitsstudie_emb (xfa_text : String) : Option ParseResult := do
  let text := (normalizeDS xfa_text).toList
  let name := extract_value true "<thema>" "" text
  let fq := dsFoerderquote text
  let mitarbeiter ← extract_mitarbeiter_ds (normalizeDS xfa_text)
  let zu ← extract_ma_zuordnungen_ds (normalizeDS xfa_text)
  pure
    { projekt_name := name
      foerderquote := fq
      mitarbeiter := mitarbeiter
      arbeitspakete := dsArbeitspakete zu text
      format := "durchfuehrbarkeitsstudie" }

/-- The `[oö]` alternation of the pattern
`<cg_VMS_AD_F[oö]rderquote>([^<]+)` (line 481); `Char.toLower` is
ASCII-only, so the uppercase umlaut is listed explicitly. -/
def matchStdFq (l : List Char) : Option (List Char × List Char) :=
  if ciPref true "<cg_VMS_AD_F".toList l then
    match l.drop 12 with
    | c :: r =>
      if c.toLower == 'o' || c == 'ö' || c == 'Ö' then
        if ciPref true "rderquote>".toList r then
          let r2 := r.drop 10
          let cap := r2.takeWhile (fun ch => ch ≠ '<')
          if cap.isEmpty then none else some (cap, r2.drop cap.length)
        else none
      else none
    | [] => none
  else none

/-- `parse_standard_zim` (lines 469-514), restricted to the embedded
result fields; the source returns empty employee and work-package
lists for this variant.  Never raises. -/
def parse_standard_zim_emb (xfa_text : String) : ParseResult :=
  let t := xfa_text.toList
  { projekt_name := extract_value true "<cg_VMS_VB_Projekt>" "" t
    foerderquote :=
      parse_float_value
        (match searchM matchStdFq t with
          | some (cap, _) => (pyStrip cap).asString
          | none => "")
    mitarbeiter := []
    arbeitspakete := []
    format := "standard_zim" }

/-- The format dispatch of `parse_zim_pdf` (lines 564-577): the
detected variant's parser, and on `unbekannt` the feasibility-study
parser first with a fallback to the standard parser when it yields
neither a project name nor work packages. -/
def parse_zim_dispatch (xfa_text : String) : Option ParseResult :=
  let fmt := detect_format xfa_text
  if fmt = "durchfuehrbarkeitsstudie" then parse_durchfuehrbarkeitsstudie_emb xfa_text
  else if fmt = "standard_zim" then some (parse_standard_zim_emb xfa_text)
  else do
    let r ← parse_durchfuehrbarkeitsstudie_emb xfa_text
    if r.projekt_name = "" ∧ r.arbeitspakete = [] then
      pure (parse_standard_zim_emb xfa_text)
    else pure r

/-! ## Supporting lemmas -/

theorem pyReplaceAux_single_del (a : Char) :
    ∀ (fuel : Nat) (l : List Char), l.length < fuel →
      pyReplaceAux [a] [] fuel l = l.filter (fun c => c != a) := by
  intro fuel
  induction fuel with
  | zero => intro l h; omega
  | succ n ih =>
    intro l h
    cases l with
    | nil => simp [pyReplaceAux]
    | cons c cs =>
      have hcs : cs.length < n := by simpa using h
      by_cases hac : a = c
      · subst hac; simp [pyReplaceAux, ciPref, ciEq, ih cs hcs]
      · have : ¬ c = a := fun hh => hac hh.symm
        simp [pyReplaceAux, ciPref, ciEq, hac, ih cs hcs, this]

theorem pyReplaceAux_single_map (a b : Char) :
    ∀ (fuel : Nat) (l : List Char), l.length < fuel →
      pyReplaceAux [a] [b] fuel l = l.map (fun c => if c = a then b else c) := by
  intro fuel
  induction fuel with
  | zero => intro l h; omega
  | succ n ih =>
    intro l h
    cases l with
    | nil => simp [pyReplaceAux]
    | cons c cs =>
      have hcs : cs.length < n := by simpa using h
      by_cases hac : a = c
      · subst hac; simp [pyReplaceAux, ciPref, ciEq, ih cs hcs]
      · have : ¬ c = a := fun hh => hac hh.symm
        simp [pyReplaceAux, ciPref, ciEq, hac, ih cs hcs, this]

theorem pyReplace_del (l : List Char) (a : Char) :
    pyReplace l [a] [] = l.filter (fun c => c != a) :=
  pyReplaceAux_single_del a (l.length + 1) l (by omega)

theorem pyReplace_map (l : List Char) (a b : Char) :
    pyReplace l [a] [b] = l.map (fun c => if c = a then b else c) :=
  pyReplaceAux_single_map a b (l.length + 1) l (by omega)

theorem filter_dot_map_comma (l : List Char) :
    (l.filter (fun c => c != '.')).map (fun c => if c = ',' then '.' else c) =
      l.filterMap (fun c =>
        if c = '.' then none else if c = ',' then some '.' else some c) := by
  induction l with
  | nil => rfl
  | cons c cs ih =>
    by_cases h1 : c = '.'
    · simp [h1, ih]
    · by_cases h2 : c = ','
      · simp [h1, h2, ih]
      · simp [h1, h2, ih]

theorem ciPref_false_iff (p : List Char) : ∀ l, ciPref false p l = true ↔ p <+: l := by
  induction p with
  | nil => intro l; simp [ciPref]
  | cons a ps ih =>
    intro l
    cases l with
    | nil => simp [ciPref]
    | cons c cs =>
      simp [ciPref, ciEq, ih cs, List.cons_prefix_cons]

theorem containsSub_iff (p : List Char) : ∀ l, containsSub p l = true ↔ p <:+: l := by
  intro l
  induction l with
  | nil =>
    simp [containsSub, ciPref_false_iff, List.prefix_nil, List.infix_nil]
  | cons c cs ih =>
    simp only [containsSub, Bool.or_eq_true, ciPref_false_iff, ih,
      List.infix_cons_iff]

theorem mem_block10B_contrib {rd : Bool} {ma : Int} {pm aps : List Char}
    {p : String × Assignment} (h : p ∈ block10B_contrib rd ma pm aps) :
    p.2.ma_nr = ma ∧
      p.2.pm = round2 (parse_float_value pm.asString /
        ((apListOf rd aps).length : ℚ)) := by
  unfold block10B_contrib at h
  obtain ⟨ap, hap, rfl⟩ := List.mem_map.mp h
  have hne : apListOf rd aps ≠ [] := List.ne_nil_of_mem hap
  simp [hne]

/-- Invariant of the assignment dict: every entry carries a nonzero
employee ordinal. -/
def allNonzeroMa (d : ZuDict) : Prop :=
  ∀ p ∈ d, ∀ a ∈ p.2, a.ma_nr ≠ 0

theorem allNonzeroMa_nil : allNonzeroMa [] := by
  intro p hp; cases hp

theorem allNonzeroMa_dictAppend {d : ZuDict} {k : String} {a : Assignment}
    (hd : allNonzeroMa d) (ha : a.ma_nr ≠ 0) : allNonzeroMa (dictAppend d k a) := by
  induction d with
  | nil =>
    intro p hp a' ha'
    simp [dictAppend] at hp
    subst hp
    simp at ha'
    subst ha'
    exact ha
  | cons hd' tl ih =>
    obtain ⟨k', l⟩ := hd'
    have hdhead : ∀ a' ∈ l, a'.ma_nr ≠ 0 := hd (k', l) (by simp)
    have hdtl : allNonzeroMa tl := fun p hp => hd p (by simp [hp])
    intro p hp a' ha'
    simp only [dictAppend] at hp
    by_cases hk : k' = k
    · simp only [hk, if_pos rfl] at hp
      rcases List.mem_cons.mp hp with h1 | h2
      · subst h1
        rcases List.mem_append.mp ha' with h3 | h4
        · exact hdhead a' h3
        · simp at h4; subst h4; exact ha
      · exact hdtl p h2 a' ha'
    · simp only [if_neg hk] at hp
      rcases List.mem_cons.mp hp with h1 | h2
      · subst h1; exact hdhead a' ha'
      · exact ih hdtl p h2 a' ha'

theorem allNonzeroMa_foldl :
    ∀ (L : List (String × Assignment)) (d : ZuDict), allNonzeroMa d →
      (∀ q ∈ L, q.2.ma_nr ≠ 0) →
      allNonzeroMa (L.foldl (fun d p => dictAppend d p.1 p.2) d) := by
  intro L
  induction L with
  | nil => intro d hd _; exact hd
  | cons q tl ih =>
    intro d hd hq
    simp only [List.foldl_cons]
    exact ih _ (allNonzeroMa_dictAppend hd (hq q (by simp)))
      (fun q' hq' => hq q' (by simp [hq']))

theorem maBlocksFold_nonzero {rd : Bool} :
    ∀ {bs : List (List Char × List Char × List Char)} {d d' : ZuDict},
      allNonzeroMa d → maBlocksFold rd d bs = some d' → allNonzeroMa d' := by
  intro bs
  induction bs with
  | nil =>
    intro d d' hd h
    simp [maBlocksFold] at h
    subst h; exact hd
  | cons b tl ih =>
    intro d d' hd h
    obtain ⟨ms, ps, as⟩ := b
    by_cases hms : ms = []
    · simp only [maBlocksFold, hms, if_pos, Option.pure_def,
        Option.bind_eq_bind, Option.some_bind, if_true] at h
      exact ih hd h
    · simp only [maBlocksFold, if_neg hms, Option.bind_eq_bind,
        Option.bind_eq_some] at h
      obtain ⟨ma, hma, h2⟩ := h
      by_cases hz : ma = 0
      · rw [if_pos hz] at h2
        exact ih hd h2
      · rw [if_neg hz] at h2
        refine ih ?_ h2
        refine allNonzeroMa_foldl _ _ hd ?_
        intro q hq
        have := (mem_block10B_contrib hq).1
        rw [this]; exact hz

theorem zeileFold_nonzero :
    ∀ {bs : List (List Char × List Char × List Char)} {d d' : ZuDict},
      allNonzeroMa d → zeileFold d bs = some d' → allNonzeroMa d' := by
  intro bs
  induction bs with
  | nil =>
    intro d d' hd h
    simp [zeileFold] at h
    subst h; exact hd
  | cons b tl ih =>
    intro d d' hd h
    obtain ⟨ap_nr, ms, pm⟩ := b
    by_cases hms : ms = []
    · simp only [zeileFold, hms, if_pos, Option.pure_def,
        Option.bind_eq_bind, Option.some_bind, if_true] at h
      exact ih hd h
    · simp only [zeileFold, if_neg hms, Option.bind_eq_bind,
        Option.bind_eq_some] at h
      obtain ⟨ma, hma, h2⟩ := h
      by_cases hz : ma = 0
      · rw [if_pos hz] at h2
        exact ih hd h2
      · rw [if_neg hz] at h2
        refine ih ?_ h2
        exact allNonzeroMa_dictAppend hd hz

theorem extract_ma_zuordnungen_nonzero {t : String} {d : ZuDict}
    (h : extract_ma_zuordnungen_ds t = some d) : allNonzeroMa d := by
  simp only [extract_ma_zuordnungen_ds, Option.bind_eq_bind,
    Option.bind_eq_some] at h
  obtain ⟨d1, h1, h2⟩ := h
  obtain ⟨d2, h2, h3⟩ := h2
  have hd1 := maBlocksFold_nonzero allNonzeroMa_nil h1
  have hd2 := maBlocksFold_nonzero hd1 h2
  split at h3
  · exact zeileFold_nonzero hd2 h3
  · simp at h3; subst h3; exact hd2

/-- Characterization of the employee loop: every produced record
comes from an enumerated block that passes the two retention guards. -/
theorem mitarbeiterFold_mem :
    ∀ {L : List (Nat × List Char)} {l : List MA},
      mitarbeiterFold L = some l → ∀ ma ∈ l,
      ∃ ib ∈ L, containsSub "<lfd>".toList ib.2 = true ∧
        extract_value true "<name>" "</name>" ib.2 ≠ "" ∧
        extract_value true "<vname>" "</vname>" ib.2 ≠ "" ∧
        buildMA ib.1 ib.2 = some ma := by
  intro L
  induction L with
  | nil =>
    intro l h ma hma
    simp [mitarbeiterFold] at h
    subst h; cases hma
  | cons ib tl ih =>
    intro l h ma hma
    obtain ⟨idx, b⟩ := ib
    by_cases hc : containsSub "<lfd>".toList b = true
    · by_cases hskip : extract_value true "<name>" "</name>" b = "" ∨
          extract_value true "<vname>" "</vname>" b = ""
      · simp only [mitarbeiterFold, if_pos hc, if_pos hskip] at h
        obtain ⟨ib', hib', hrest⟩ := ih h ma hma
        exact ⟨ib', by simp [hib'], hrest⟩
      · simp only [mitarbeiterFold, if_pos hc, if_neg hskip,
          Option.bind_eq_bind, Option.bind_eq_some, Option.pure_def,
          Option.some_inj] at h
        obtain ⟨ma0, hma0, tl', htl', hl⟩ := h
        subst hl
        rcases List.mem_cons.mp hma with h1 | h2
        · subst h1
          push_neg at hskip
          exact ⟨(idx, b), by simp, hc, hskip.1, hskip.2, hma0⟩
        · obtain ⟨ib', hib', hrest⟩ := ih htl' ma h2
          exact ⟨ib', by simp [hib'], hrest⟩
    · simp only [mitarbeiterFold, if_neg hc] at h
      obtain ⟨ib', hib', hrest⟩ := ih h ma hma
      exact ⟨ib', by simp [hib'], hrest⟩

theorem deriveStundensatz_ma_nr (m : MA) :
    (deriveStundensatz m).ma_nr = m.ma_nr := by
  unfold deriveStundensatz
  split <;> rfl

theorem deriveMonatsbrutto_ma_nr (m : MA) :
    (deriveMonatsbrutto m).ma_nr = m.ma_nr := by
  unfold deriveMonatsbrutto
  split <;> rfl

theorem deriveMA_ma_nr (m : MA) : (deriveMA m).ma_nr = m.ma_nr := by
  unfold deriveMA
  rw [deriveMonatsbrutto_ma_nr, deriveStundensatz_ma_nr]

theorem buildMA_ma_nr {idx : Nat} {b : List Char} {ma : MA}
    (h : buildMA idx b = some ma) :
    (lfdValue b = "" → ma.ma_nr = (idx : Int) + 1) ∧
      (lfdValue b ≠ "" → pyIntFloat (lfdValue b).toList = some ma.ma_nr) := by
  unfold buildMA at h
  by_cases hl : lfdValue b = ""
  · rw [if_neg (by simp [hl])] at h
    simp only [Option.pure_def, Option.bind_eq_bind, Option.some_bind,
      Option.some_inj] at h
    constructor
    · intro _
      rw [← h, deriveMA_ma_nr]
      rfl
    · intro hne; exact absurd hl hne
  · rw [if_pos hl] at h
    simp only [Option.pure_def, Option.bind_eq_bind, Option.bind_eq_some,
      Option.some_inj] at h
    obtain ⟨nr, hnr, hma⟩ := h
    constructor
    · intro heq; exact absurd heq hl
    · intro _
      rw [hnr, ← hma, deriveMA_ma_nr]
      rfl

/-- Technical entries have a display code that is unique in the
list. -/
def techOnlyUniq (l : List AP) : Prop :=
  ∀ ap ∈ l, ap.is_technical = true →
    l.countP (fun x => x.ap_code == ap.ap_code) = 1

theorem nonTechAPs_not_technical {zu : ZuDict} {a b c d e : List String} :
    ∀ ap ∈ nonTechAPs zu a b c d e, ap.is_technical = false := by
  intro ap hap
  unfold nonTechAPs at hap
  obtain ⟨x, _, hx⟩ := List.mem_filterMap.mp hap
  obtain ⟨i, nr, nm, pm, von, bis⟩ := x
  by_cases hcond : nm ≠ "" ∧ nm.length > 2
  · simp only [if_pos hcond, Option.some_inj] at hx
    rw [← hx]
  · simp [if_neg hcond] at hx

theorem techStep_uniq {zu : ZuDict} {acc : List AP}
    {c : String × String × String} (h : techOnlyUniq acc) :
    techOnlyUniq (techStep zu acc c) := by
  obtain ⟨nr, nm, pm⟩ := c
  simp only [techStep]
  split
  case isFalse => exact h
  case isTrue hcond =>
    split
    case isFalse => exact h
    case isTrue hacc =>
      obtain ⟨hany, _⟩ := hacc
      have hnotin : ∀ x ∈ acc,
          x.ap_code ≠ "AP" ++ (pyRStrip '.' nr.toList).asString := by
        intro x hx
        have := List.any_eq_false.mp (Bool.eq_false_iff.mpr hany) x hx
        simpa using this
      intro ap hap htech
      rcases List.mem_append.mp hap with hin | hnew
      · have h1 := h ap hin htech
        rw [List.countP_append]
        have : (fun x => x.ap_code == ap.ap_code)
            (⟨(parse_ap_nummer (pyRStrip '.' nr.toList).asString).1,
              (parse_ap_nummer (pyRStrip '.' nr.toList).asString).2,
              "AP" ++ (pyRStrip '.' nr.toList).asString, nm, none, none,
              parse_float_value pm, true,
              dictGet zu ("AP" ++ (pyRStrip '.' nr.toList).asString)⟩ : AP)
            = false := by
          simp only [beq_eq_false_iff_ne, ne_eq]
          intro hcontra
          exact hnotin ap hin (by rw [← hcontra])
        simp only [List.countP_cons, List.countP_nil, this, h1]
        rfl
      · simp only [List.mem_singleton] at hnew
        subst hnew
        rw [List.countP_append]
        have hzero : acc.countP
            (fun x => x.ap_code == "AP" ++ (pyRStrip '.' nr.toList).asString)
            = 0 := by
          apply List.countP_eq_zero.mpr
          intro x hx
          simpa using hnotin x hx
        simp only [hzero]
        simp [List.countP_cons]

theorem foldl_techStep_uniq {zu : ZuDict} :
    ∀ (L : List (String × String × String)) (acc : List AP),
      techOnlyUniq acc → techOnlyUniq (L.foldl (techStep zu) acc) := by
  intro L
  induction L with
  | nil => intro acc h; exact h
  | cons c tl ih =>
    intro acc h
    simp only [List.foldl_cons]
    exact ih _ (techStep_uniq h)

theorem techOnlyUniq_of_perm {l1 l2 : List AP} (hp : l1.Perm l2)
    (h : techOnlyUniq l1) : techOnlyUniq l2 := by
  intro ap hap htech
  rw [← hp.countP_eq]
  exact h ap (hp.mem_iff.mpr hap) htech

theorem dsArbeitspakete_uniq (zu : ZuDict) (text : List Char) :
    techOnlyUniq (dsArbeitspakete zu text) := by
  unfold dsArbeitspakete
  apply techOnlyUniq_of_perm (List.perm_insertionSort apKeyLe _).symm
  unfold techAPs
  apply foldl_techStep_uniq
  intro ap hap htech
  have := nonTechAPs_not_technical ap hap
  rw [this] at htech
  cases htech

theorem deriveStundensatz_keeps_brutto (m : MA) :
    (deriveStundensatz m).monatsbrutto = m.monatsbrutto ∧
      (deriveStundensatz m).jahresbrutto = m.jahresbrutto := by
  unfold deriveStundensatz
  split <;> exact ⟨rfl, rfl⟩

/-! ## Claim theorems -/

/-- C1 (amended).  `parse_float_value` is total with default `0.0`,
and on the stripped input: with both separators present and the last
`','` after the last `'.'`, every `'.'` is removed and every `','`
becomes the decimal point; with the last `'.'` after the last `','`,
every `','` is removed; with only `','` present, every `','` becomes
the decimal point.  (Extra occurrences of the decimal separator
itself are therefore not stripped: they make the cleaned string
unparsable and the result `0.0`.)  The spec's examples hold. -/
theorem C1_parse_float_value_amended :
    (∀ s : String, s ≠ "" →
      (pyStrip s.toList).contains ',' = true →
      (pyStrip s.toList).contains '.' = true →
      rfindIdx (pyStrip s.toList) ',' > rfindIdx (pyStrip s.toList) '.' →
      parse_float_value s = (pyFloat ((pyStrip s.toList).filterMap
        (fun c => if c = '.' then none
          else if c = ',' then some '.' else some c))).getD 0) ∧
    (∀ s : String, s ≠ "" →
      (pyStrip s.toList).contains ',' = true →
      (pyStrip s.toList).contains '.' = true →
      ¬ rfindIdx (pyStrip s.toList) ',' > rfindIdx (pyStrip s.toList) '.' →
      parse_float_value s =
        (pyFloat ((pyStrip s.toList).filter (fun c => c != ','))).getD 0) ∧
    (∀ s : String, s ≠ "" →
      (pyStrip s.toList).contains ',' = true →
      (pyStrip s.toList).contains '.' = false →
      parse_float_value s = (pyFloat ((pyStrip s.toList).map
        (fun c => if c = ',' then '.' else c))).getD 0) ∧
    parse_float_value "1.234,56" = 1234.56 ∧
    parse_float_value "1,234.56" = 1234.56 ∧
    parse_float_value "50,5" = 50.5 ∧
    parse_float_value "" = 0 ∧
    parse_float_value "abc" = 0 := by
  refine ⟨?_, ?_, ?_, by decide, by decide, by decide, by decide, by decide⟩
  · intro s hs h1 h2 h3
    simp only [parse_float_value, if_neg hs, h1, h2, Bool.and_self,
      if_true, if_pos h3]
    rw [pyReplace_del, pyReplace_map, filter_dot_map_comma]
  · intro s hs h1 h2 h3
    simp only [parse_float_value, if_neg hs, h1, h2, Bool.and_self,
      if_true, if_neg h3]
    rw [pyReplace_del]
  · intro s hs h1 h2
    simp only [parse_float_value, if_neg hs, h1, h2, Bool.and_false,
      Bool.false_eq_true, if_false, if_true]
    rw [pyReplace_map]

theorem C1_parse_float_value_amended_witness :
    parse_float_value "1.234,56" = (pyFloat ((pyStrip "1.234,56".toList).filterMap
      (fun c => if c = '.' then none
        else if c = ',' then some '.' else some c))).getD 0 :=
  C1_parse_float_value_amended.1 "1.234,56" (by decide) (by decide) (by decide)
    (by decide)

/-- C1 counterexample.  In `"1.2,3,4"` the last separator is `','`;
the claim's reading (all earlier separator occurrences stripped as
thousands separators) would give `123.4`, but the code turns the
earlier `','` into a second decimal point and yields `0.0`. -/
theorem C1_counterexample :
    parse_float_value "1.2,3,4" = 0 ∧ parse_float_value "1.2,3,4" ≠ 123.4 :=
  ⟨by decide, by decide⟩

/-- C2.  In the grouped-by-employee encoding every contribution of a
block is the block total divided by the number of listed packages
(rounded to two decimals), and the concrete block
`(1, 1.5, "1;3;")` yields exactly the two `0.75` entries `AP1` and
`AP3`. -/
theorem C2_equal_share :
    (∀ (rd : Bool) (ma : Int) (pm_gesamt aps : List Char)
        (p : String × Assignment),
      p ∈ block10B_contrib rd ma pm_gesamt aps →
      p.2.pm = round2 (parse_float_value pm_gesamt.asString /
        ((apListOf rd aps).length : ℚ))) ∧
    extract_ma_zuordnungen_ds
        "<MA_10B>1</MA_10B><pm_10B>1.5</pm_10B><AP_10B>1;3;</AP_10B>"
      = some [("AP1", [⟨1, 0.75⟩]), ("AP3", [⟨1, 0.75⟩])] :=
  ⟨fun _ _ _ _ _ h => (mem_block10B_contrib h).2, by decide⟩

theorem C2_equal_share_witness :
    ((⟨1, 0.75⟩ : Assignment)).pm = round2 (parse_float_value "1.5" /
      ((apListOf false "1;3;".toList).length : ℚ)) :=
  C2_equal_share.1 false 1 "1.5".toList "1;3;".toList ("AP1", ⟨1, 0.75⟩)
    (by decide)

/-- C4 (amended).  Every assignment in the resolver's output map has a
nonzero employee ordinal (blocks with ordinal `0` or an empty ordinal
field are dropped silently); person-months are NOT filtered. -/
theorem C4_amended_nonzero_ordinals :
    ∀ (t : String) (d : ZuDict), extract_ma_zuordnungen_ds t = some d →
      ∀ p ∈ d, ∀ a ∈ p.2, a.ma_nr ≠ 0 :=
  fun _ _ h => extract_ma_zuordnungen_nonzero h

theorem C4_amended_nonzero_ordinals_witness :
    ((⟨2, 1.5⟩ : Assignment)).ma_nr ≠ 0 :=
  C4_amended_nonzero_ordinals
    "<MA_10B>2</MA_10B><pm_10B>1.5</pm_10B><AP_10B>4;</AP_10B>"
    [("AP4", [⟨2, 1.5⟩])] (by decide) ("AP4", [⟨2, 1.5⟩]) (by decide)
    ⟨2, 1.5⟩ (by decide)

/-- C4 counterexample.  A block whose person-months field is
unparsable (`"abc"` → `0.0`) still contributes an assignment, with
`pm = 0`: zero person-months are not dropped. -/
theorem C4_counterexample :
    extract_ma_zuordnungen_ds
        "<MA_10B>1</MA_10B><pm_10B>abc</pm_10B><AP_10B>1;</AP_10B>"
      = some [("AP1", [⟨1, 0⟩])] ∧
    ¬ (∀ d, extract_ma_zuordnungen_ds
        "<MA_10B>1</MA_10B><pm_10B>abc</pm_10B><AP_10B>1;</AP_10B>" = some d →
        ∀ p ∈ d, ∀ a ∈ p.2, 0 < a.pm) := by
  refine ⟨by decide, ?_⟩
  intro hall
  have := hall [("AP1", [⟨1, 0⟩])] (by decide) ("AP1", [⟨1, 0⟩]) (by decide)
    ⟨1, 0⟩ (by decide)
  exact absurd this (by decide)

/-- C6 (amended).  The derived hourly rate is
`round2 (annual / (weekly × 52))` and the derived monthly pay is
`round2 (annual / 12)` — the quotients rounded to two decimal places,
not the exact quotients. -/
theorem C6_amended_derived_fields :
    (∀ ma : MA, ma.jahresbrutto > 0 → ma.stundensatz = 0 →
      ma.wochenstunden > 0 →
      (deriveMA ma).stundensatz =
        round2 (ma.jahresbrutto / (ma.wochenstunden * 52))) ∧
    (∀ ma : MA, ma.monatsbrutto = 0 → ma.jahresbrutto > 0 →
      (deriveMA ma).monatsbrutto = round2 (ma.jahresbrutto / 12)) := by
  constructor
  · intro ma h1 h2 h3
    have hs : deriveStundensatz ma =
        { ma with stundensatz :=
            round2 (ma.jahresbrutto / (ma.wochenstunden * 52)) } := by
      unfold deriveStundensatz
      rw [if_pos ⟨h1, h2, h3⟩]
    unfold deriveMA deriveMonatsbrutto
    rw [hs]
    split <;> rfl
  · intro ma h1 h2
    obtain ⟨hm, hj⟩ := deriveStundensatz_keeps_brutto ma
    unfold deriveMA deriveMonatsbrutto
    rw [if_pos (by rw [hm, hj]; exact ⟨h1, h2⟩), hj]

theorem C6_amended_derived_fields_witness :
    (deriveMA ⟨1, "M", "A", "A M", "", "", "", "", 40, 52000, 0, 0, 1⟩).stundensatz
        = round2 ((52000 : ℚ) / (40 * 52)) ∧
      (deriveMA ⟨1, "M", "A", "A M", "", "", "", "", 40, 52000, 0, 0, 1⟩).monatsbrutto
        = round2 ((52000 : ℚ) / 12) :=
  ⟨C6_amended_derived_fields.1 ⟨1, "M", "A", "A M", "", "", "", "", 40, 52000, 0, 0, 1⟩
      (by decide) (by decide) (by decide),
    C6_amended_derived_fields.2 ⟨1, "M", "A", "A M", "", "", "", "", 40, 52000, 0, 0, 1⟩
      (by decide) (by decide)⟩

/-- C6 counterexample.  An employee block with annual pay 100 and
weekly hours 3 gets hourly rate `0.64` and monthly pay `8.33` — the
rounded values, which differ from the exact quotients `100/156` and
`100/12` stated by the claim. -/
theorem C6_counterexample :
    (extract_mitarbeiter_ds
        "<Page11><lfd>1</lfd><name>M</name><vname>A</vname><wo_std>3</wo_std><jahresbrutto>100</jahresbrutto></Page11>").map
      (fun l => l.map (fun m =>
        (m.stundensatz, m.monatsbrutto, m.jahresbrutto, m.wochenstunden)))
      = some [(0.64, 8.33, 100, 3)] ∧
    (0.64 : ℚ) ≠ 100 / (3 * 52) ∧ (8.33 : ℚ) ≠ 100 / 12 :=
  ⟨by decide, by decide, by decide⟩

/-- C9.  `parse_ap_nummer` is total (the embedding returns a pair of
integers for every string) and maps `"1" ↦ (1,0)`, `"1.2" ↦ (1,2)`,
`"" ↦ (0,0)`, `"x.y" ↦ (0,0)`. -/
theorem C9_parse_ap_nummer :
    (∀ s : String, ∃ p : Int × Int, parse_ap_nummer s = p) ∧
    parse_ap_nummer "1" = (1, 0) ∧
    parse_ap_nummer "1.2" = (1, 2) ∧
    parse_ap_nummer "" = (0, 0) ∧
    parse_ap_nummer "x.y" = (0, 0) :=
  ⟨fun s => ⟨parse_ap_nummer s, rfl⟩, by decide, by decide, by decide, by decide⟩

/-- C10.  In the feasibility-study parser, whenever the funding-rate
field extracts-and-parses to `0.0` (absent, unparsable, or a stated
`0`), the result's funding rate is the default `50.0`; in particular
a stated rate of exactly `0` is replaced by `50.0`. -/
theorem C10_foerderquote_default :
    (∀ (t : String) (r : ParseResult),
      parse_durchfuehrbarkeitsstudie_emb t = some r →
      extract_float_skipGt "<foerdersatz" (normalizeDS t).toList = 0 →
      r.foerderquote = 50) ∧
    parse_durchfuehrbarkeitsstudie_emb
        "<thema>X</thema><foerdersatz>0,00</foerdersatz>"
      = some ⟨"X", 50, [], [], "durchfuehrbarkeitsstudie"⟩ := by
  refine ⟨?_, by decide⟩
  intro t r h hq
  simp only [parse_durchfuehrbarkeitsstudie_emb, Option.bind_eq_bind,
    Option.pure_def, Option.bind_eq_some, Option.some_inj] at h
  obtain ⟨mit, hm, zu, hz, hr⟩ := h
  rw [← hr]
  have hq' : extract_float_skipGt "<foerdersatz" (normalizeDS t).data = 0 := hq
  simp [dsFoerderquote, hq']

theorem C10_foerderquote_default_witness :
    (ParseResult.foerderquote ⟨"X", 50, [], [], "durchfuehrbarkeitsstudie"⟩) = 50 :=
  C10_foerderquote_default.1 "<thema>X</thema>"
    ⟨"X", 50, [], [], "durchfuehrbarkeitsstudie"⟩ (by decide) (by decide)

/-- C3 (amended).  Display codes of technical entries are unique in
the assembled work-package list: a technical candidate colliding with
any already-accepted package is dropped, not merged.  (Uniqueness of
the full `(main number, display code)` pair fails for duplicated
non-technical entries, see the counterexample.)  The claim's concrete
scenario holds: a non-technical `AP1` plus a technical candidate also
resolving to `AP1` assemble to exactly one entry, the non-technical
one. -/
theorem C3_dedup_amended :
    (∀ (t : String) (r : ParseResult),
      parse_durchfuehrbarkeitsstudie_emb t = some r →
      ∀ ap ∈ r.arbeitspakete, ap.is_technical = true →
        r.arbeitspakete.countP (fun x => x.ap_code == ap.ap_code) = 1) ∧
    (∃ r, parse_durchfuehrbarkeitsstudie_emb
        "<Arbeitspaket_Nr>1</Arbeitspaket_Nr><Arbeitspaket>Planung</Arbeitspaket><pm>0.5</pm><Arbeitspaket_Nr_techn>1</Arbeitspaket_Nr_techn><Arbeitspaket_techn>Technik</Arbeitspaket_techn><pm_techn>2.0</pm_techn>"
        = some r ∧
      r.arbeitspakete.map (fun ap => (ap.ap_code, ap.is_technical, ap.name))
        = [("AP1", false, "Planung")]) := by
  constructor
  · intro t r h
    simp only [parse_durchfuehrbarkeitsstudie_emb, Option.bind_eq_bind,
      Option.pure_def, Option.bind_eq_some, Option.some_inj] at h
    obtain ⟨mit, hm, zu, hz, hr⟩ := h
    rw [← hr]
    exact dsArbeitspakete_uniq zu _
  · exact ⟨_, rfl, by decide⟩

theorem C3_dedup_amended_witness :
    ∃ r, parse_durchfuehrbarkeitsstudie_emb
        "<Arbeitspaket_Nr>1</Arbeitspaket_Nr><Arbeitspaket>Planung</Arbeitspaket><pm>0.5</pm><Arbeitspaket_Nr_techn>2</Arbeitspaket_Nr_techn><Arbeitspaket_techn>Technik</Arbeitspaket_techn><pm_techn>1.0</pm_techn>"
        = some r ∧
      ∀ ap ∈ r.arbeitspakete, ap.is_technical = true →
        r.arbeitspakete.countP (fun x => x.ap_code == ap.ap_code) = 1 :=
  ⟨_, rfl, fun ap h1 h2 => C3_dedup_amended.1
    "<Arbeitspaket_Nr>1</Arbeitspaket_Nr><Arbeitspaket>Planung</Arbeitspaket><pm>0.5</pm><Arbeitspaket_Nr_techn>2</Arbeitspaket_Nr_techn><Arbeitspaket_techn>Technik</Arbeitspaket_techn><pm_techn>1.0</pm_techn>"
    _ rfl ap h1 h2⟩

/-- C3 counterexample.  Two non-technical candidates with the same
number are both accepted: the assembled list carries the pair
`(1, "AP1")` twice, so `(main number, display code)` is not unique
within a record. -/
theorem C3_counterexample :
    ∃ r, parse_durchfuehrbarkeitsstudie_emb
        "<Arbeitspaket_Nr>1</Arbeitspaket_Nr><Arbeitspaket>Alpha</Arbeitspaket><pm>1.0</pm><Arbeitspaket_Nr>1</Arbeitspaket_Nr><Arbeitspaket>Betaa</Arbeitspaket><pm>2.0</pm>"
        = some r ∧
      r.arbeitspakete.map (fun ap => (ap.ap_nummer, ap.ap_code))
        = [(1, "AP1"), (1, "AP1")] ∧
      ¬ (r.arbeitspakete.map (fun ap => (ap.ap_nummer, ap.ap_code))).Nodup :=
  ⟨_, rfl, by decide, by decide⟩

/-- C5 (amended).  Every record the employee extractor produces comes
from a `Page11` block that contains the opening-tag substring
`<lfd>` (the lfd VALUE may be empty) and has nonempty surname and
given name; its ordinal is the parsed lfd value when that value is
nonempty (a non-numeric value aborts the extraction), else the
block's 1-based position among ALL `Page11` blocks. -/
theorem C5_mitarbeiter_amended :
    ∀ (t : String) (l : List MA), extract_mitarbeiter_ds t = some l →
      ∀ ma ∈ l, ∃ ib ∈ (page11Blocks t).enum,
        containsSub "<lfd>".toList ib.2 = true ∧
        extract_value true "<name>" "</name>" ib.2 ≠ "" ∧
        extract_value true "<vname>" "</vname>" ib.2 ≠ "" ∧
        buildMA ib.1 ib.2 = some ma ∧
        (lfdValue ib.2 = "" → ma.ma_nr = (ib.1 : Int) + 1) ∧
        (lfdValue ib.2 ≠ "" → pyIntFloat (lfdValue ib.2).toList = some ma.ma_nr) := by
  intro t l h ma hma
  obtain ⟨ib, hib, hc, hn, hv, hb⟩ := mitarbeiterFold_mem h ma hma
  have hnr := buildMA_ma_nr hb
  exact ⟨ib, hib, hc, hn, hv, hb, hnr.1, hnr.2⟩

theorem C5_mitarbeiter_amended_witness :
    ∃ ib ∈ (page11Blocks
        "<Page11><lfd>2</lfd><name>Muster</name><vname>Max</vname></Page11>").enum,
      containsSub "<lfd>".toList ib.2 = true ∧
      extract_value true "<name>" "</name>" ib.2 ≠ "" ∧
      extract_value true "<vname>" "</vname>" ib.2 ≠ "" ∧
      buildMA ib.1 ib.2 =
        some ⟨2, "Muster", "Max", "Max Muster", "", "", "", "", 0, 0, 0, 0, 1⟩ ∧
      (lfdValue ib.2 = "" →
        MA.ma_nr ⟨2, "Muster", "Max", "Max Muster", "", "", "", "", 0, 0, 0, 0, 1⟩
          = (ib.1 : Int) + 1) ∧
      (lfdValue ib.2 ≠ "" → pyIntFloat (lfdValue ib.2).toList =
        some (MA.ma_nr ⟨2, "Muster", "Max", "Max Muster", "", "", "", "", 0, 0, 0, 0, 1⟩)) :=
  C5_mitarbeiter_amended
    "<Page11><lfd>2</lfd><name>Muster</name><vname>Max</vname></Page11>"
    [⟨2, "Muster", "Max", "Max Muster", "", "", "", "", 0, 0, 0, 0, 1⟩]
    (by decide) _ (by decide)

/-- C5 counterexample.  A single block whose `<lfd>` tag is present
but EMPTY is still retained (with the fallback ordinal 1): inclusion
does not require a non-empty ordinal field, only the opening-tag
substring. -/
theorem C5_counterexample :
    (page11Blocks
      "<Page11><lfd></lfd><name>Mueller</name><vname>Anna</vname></Page11>").length
        = 1 ∧
    lfdValue ((page11Blocks
      "<Page11><lfd></lfd><name>Mueller</name><vname>Anna</vname></Page11>").getD 0 [])
        = "" ∧
    extract_mitarbeiter_ds
        "<Page11><lfd></lfd><name>Mueller</name><vname>Anna</vname></Page11>"
      = some [⟨1, "Mueller", "Anna", "Anna Mueller", "", "", "", "", 0, 0, 0, 0, 1⟩] :=
  ⟨by decide, by decide, by decide⟩

/-- C7.  `detect_format` classifies by marker substrings with the
feasibility-study markers taking precedence, and the dispatch on an
`unbekannt` text runs the feasibility-study parser first, replacing
its result by the standard parser's exactly when it yields neither a
project name nor any work packages. -/
theorem C7_detect_and_fallback :
    (∀ t : String, detect_format t = "durchfuehrbarkeitsstudie" ↔
      ("Antrag_DS".toList <:+: t.toList ∨ "<thema>".toList <:+: t.toList)) ∧
    (∀ t : String, detect_format t = "standard_zim" ↔
      (¬ ("Antrag_DS".toList <:+: t.toList ∨ "<thema>".toList <:+: t.toList) ∧
        ("cg_VMS_".toList <:+: t.toList ∨ "cg_case_".toList <:+: t.toList))) ∧
    (∀ t : String, detect_format t = "unbekannt" ↔
      (¬ ("Antrag_DS".toList <:+: t.toList ∨ "<thema>".toList <:+: t.toList) ∧
        ¬ ("cg_VMS_".toList <:+: t.toList ∨ "cg_case_".toList <:+: t.toList))) ∧
    (∀ t : String, detect_format t = "durchfuehrbarkeitsstudie" →
      parse_zim_dispatch t = parse_durchfuehrbarkeitsstudie_emb t) ∧
    (∀ t : String, detect_format t = "standard_zim" →
      parse_zim_dispatch t = some (parse_standard_zim_emb t)) ∧
    (∀ t : String, detect_format t = "unbekannt" →
      parse_zim_dispatch t = (parse_durchfuehrbarkeitsstudie_emb t).map
        (fun r => if r.projekt_name = "" ∧ r.arbeitspakete = []
          then parse_standard_zim_emb t else r)) := by
  have hds : ∀ t : String,
      (containsSub "Antrag_DS".toList t.toList
        || containsSub "<thema>".toList t.toList) = true ↔
      ("Antrag_DS".toList <:+: t.toList ∨ "<thema>".toList <:+: t.toList) := by
    intro t; simp [containsSub_iff]
  have hstd : ∀ t : String,
      (containsSub "cg_VMS_".toList t.toList
        || containsSub "cg_case_".toList t.toList) = true ↔
      ("cg_VMS_".toList <:+: t.toList ∨ "cg_case_".toList <:+: t.toList) := by
    intro t; simp [containsSub_iff]
  refine ⟨?_, ?_, ?_, ?_, ?_, ?_⟩
  · intro t
    simp only [detect_format]
    split_ifs with h1 h2
    · simp only [true_iff]
      exact (hds t).mp h1
    · constructor
      · intro hc; exact absurd hc (by decide)
      · intro hm; exact absurd ((hds t).mpr hm) h1
    · constructor
      · intro hc; exact absurd hc (by decide)
      · intro hm; exact absurd ((hds t).mpr hm) h1
  · intro t
    simp only [detect_format]
    split_ifs with h1 h2
    · constructor
      · intro hc; exact absurd hc (by decide)
      · intro hm; exact absurd ((hds t).mp h1) hm.1
    · simp only [true_iff]
      exact ⟨fun hm => absurd ((hds t).mpr hm) h1, (hstd t).mp h2⟩
    · constructor
      · intro hc; exact absurd hc (by decide)
      · intro hm; exact absurd ((hstd t).mpr hm.2) h2
  · intro t
    simp only [detect_format]
    split_ifs with h1 h2
    · constructor
      · intro hc; exact absurd hc (by decide)
      · intro hm; exact absurd ((hds t).mp h1) hm.1
    · constructor
      · intro hc; exact absurd hc (by decide)
      · intro hm; exact absurd ((hstd t).mp h2) hm.2
    · simp only [true_iff]
      exact ⟨fun hm => absurd ((hds t).mpr hm) h1,
        fun hm => absurd ((hstd t).mpr hm) h2⟩
  · intro t h
    unfold parse_zim_dispatch
    rw [h, if_pos rfl]
  · intro t h
    unfold parse_zim_dispatch
    rw [h, if_neg (by decide), if_pos rfl]
  · intro t h
    unfold parse_zim_dispatch
    rw [h, if_neg (by decide), if_neg (by decide)]
    cases hp : parse_durchfuehrbarkeitsstudie_emb t with
    | none => rfl
    | some r =>
      simp only [Option.bind_eq_bind, Option.some_bind, Option.map_some']
      by_cases hc : r.projekt_name = "" ∧ r.arbeitspakete = []
      · rw [if_pos hc, if_pos hc]; rfl
      · rw [if_neg hc, if_neg hc]; rfl

theorem C7_detect_and_fallback_witness :
    parse_zim_dispatch "hello" = (parse_durchfuehrbarkeitsstudie_emb "hello").map
      (fun r => if r.projekt_name = "" ∧ r.arbeitspakete = []
        then parse_standard_zim_emb "hello" else r) :=
  C7_detect_and_fallback.2.2.2.2.2 "hello" (by decide)

theorem isoPrefixTest_snd_dot (a : Char) (rest : List Char) :
    isoPrefixTest (a :: '.' :: rest) = false := by
  unfold isoPrefixTest
  split
  next a' b' c' d' e' f' g' h' t heq =>
    injection heq with h1 heq2
    injection heq2 with h2 heq3
    rw [← h2]
    simp [allDigits]
  next => rfl

theorem isoPrefixTest_thd_dot (a b : Char) (rest : List Char) :
    isoPrefixTest (a :: b :: '.' :: rest) = false := by
  unfold isoPrefixTest
  split
  next a' b' c' d' e' f' g' h' t heq =>
    injection heq with h1 heq2
    injection heq2 with h2 heq3
    injection heq3 with h3 heq4
    rw [← h3]
    simp [allDigits]
  next => rfl

theorem grp12_decomp (g : List Char) (c : Char) (cs : List Char)
    (hg : allDigits g = true) (h1 : g ≠ []) (h2 : g.length ≤ 2)
    (hc : c.isDigit = true) :
    grp12 (g ++ '.' :: c :: cs) = some (g, c :: cs) := by
  have hcdot : ¬ c = '.' := by
    intro h; rw [h] at hc; exact absurd hc (by decide)
  match g, h1, h2 with
  | [a], _, _ =>
    have ha : a.isDigit = true := by simpa [allDigits] using hg
    show (if c = '.' ∧ a.isDigit ∧ Char.isDigit '.' then some ([a, '.'], cs)
      else if '.' = '.' ∧ a.isDigit then some ([a], c :: cs) else none)
        = some ([a], c :: cs)
    rw [if_neg (fun hcon => hcdot hcon.1), if_pos ⟨rfl, ha⟩]
  | [a, b], _, _ =>
    have hab : a.isDigit = true ∧ b.isDigit = true := by
      simpa [allDigits] using hg
    show (if '.' = '.' ∧ a.isDigit ∧ b.isDigit then some ([a, b], c :: cs)
      else if b = '.' ∧ a.isDigit then some ([a], '.' :: c :: cs) else none)
        = some ([a, b], c :: cs)
    rw [if_pos ⟨rfl, hab.1, hab.2⟩]
  | _ :: _ :: _ :: _, _, hx => simp at hx

theorem germanPrefixMatch_decomp (dd mm yyyy r : List Char)
    (hdd : allDigits dd = true) (hmm : allDigits mm = true)
    (hyy : allDigits yyyy = true) (hd1 : dd ≠ []) (hd2 : dd.length ≤ 2)
    (hm1 : mm ≠ []) (hm2 : mm.length ≤ 2) (hy : yyyy.length = 4) :
    germanPrefixMatch (dd ++ '.' :: (mm ++ '.' :: (yyyy ++ r)))
      = some (dd, mm, yyyy) := by
  match mm, hm1 with
  | m0 :: mrest, _ =>
    have hm0 : m0.isDigit = true := by
      simp [allDigits] at hmm; exact hmm.1
    have hmm' : allDigits (m0 :: mrest) = true := by
      simp [allDigits] at hmm ⊢; exact hmm
    match yyyy, hy with
    | [y1, y2, y3, y4], _ =>
      have hy1 : y1.isDigit = true := by
        simp [allDigits] at hyy; exact hyy.1
      have e1 : dd ++ '.' :: ((m0 :: mrest) ++ '.' :: ([y1, y2, y3, y4] ++ r))
          = dd ++ '.' :: m0 :: (mrest ++ '.' :: ([y1, y2, y3, y4] ++ r)) := by
        simp
      have e2 : m0 :: (mrest ++ '.' :: ([y1, y2, y3, y4] ++ r))
          = (m0 :: mrest) ++ '.' :: y1 :: (y2 :: y3 :: y4 :: r) := by
        simp
      unfold germanPrefixMatch
      rw [e1, grp12_decomp dd m0 _ hdd hd1 hd2 hm0]
      simp only
      rw [e2, grp12_decomp (m0 :: mrest) y1 _ hmm' (by simp) hm2 hy1]
      simp only
      rw [if_pos hyy]

/-- C8 (amended).  `parse_german_date` works on the stripped input
and matches PREFIXES: a stripped string starting with
`D{1,2}.D{1,2}.DDDD` maps to the ISO form of that prefix (the rest is
dropped), a stripped string starting with `DDDD-DD-DD` maps to its
first ten characters, and every other string is returned stripped but
otherwise unchanged.  The spec's examples hold. -/
theorem C8_parse_german_date_amended :
    (∀ (s : String) (dd mm yyyy r : List Char), s ≠ "" →
      pyStrip s.toList = dd ++ '.' :: (mm ++ '.' :: (yyyy ++ r)) →
      allDigits dd = true → allDigits mm = true → allDigits yyyy = true →
      dd ≠ [] → dd.length ≤ 2 → mm ≠ [] → mm.length ≤ 2 → yyyy.length = 4 →
      parse_german_date s
        = (yyyy ++ '-' :: zfill2 mm ++ '-' :: zfill2 dd).asString) ∧
    (∀ (s : String) (a b c d e f g h : Char) (r : List Char), s ≠ "" →
      pyStrip s.toList = a :: b :: c :: d :: '-' :: e :: f :: '-' :: g :: h :: r →
      allDigits [a, b, c, d] = true → allDigits [e, f] = true →
      allDigits [g, h] = true →
      parse_german_date s = ([a, b, c, d, '-', e, f, '-', g, h]).asString) ∧
    (∀ s : String, s ≠ "" → isoPrefixTest (pyStrip s.toList) = false →
      germanPrefixMatch (pyStrip s.toList) = none →
      parse_german_date s = (pyStrip s.toList).asString) ∧
    parse_german_date "21.03.2024" = "2024-03-21" ∧
    parse_german_date "2024-03-21T10:00" = "2024-03-21" ∧
    parse_german_date "" = "" := by
  refine ⟨?_, ?_, ?_, by decide, by decide, by decide⟩
  · intro s dd mm yyyy r hs hdec hdd hmm hyy hd1 hd2 hm1 hm2 hy
    have hiso : isoPrefixTest (dd ++ '.' :: (mm ++ '.' :: (yyyy ++ r))) = false := by
      match dd, hd1, hd2 with
      | [a], _, _ => exact isoPrefixTest_snd_dot a _
      | [a, b], _, _ => exact isoPrefixTest_thd_dot a b _
      | _ :: _ :: _ :: _, _, hx => simp at hx
    have hger := germanPrefixMatch_decomp dd mm yyyy r hdd hmm hyy hd1 hd2 hm1 hm2 hy
    unfold parse_german_date
    rw [if_neg hs, hdec]
    simp only [hiso, Bool.false_eq_true, if_false, hger]
  · intro s a b c d e f g h r hs hdec h1 h2 h3
    have hiso : isoPrefixTest
        (a :: b :: c :: d :: '-' :: e :: f :: '-' :: g :: h :: r) = true := by
      show (allDigits [a, b, c, d] && allDigits [e, f] && allDigits [g, h]) = true
      rw [h1, h2, h3]
      rfl
    unfold parse_german_date
    rw [if_neg hs, hdec]
    simp only [hiso, if_true]
    rfl
  · intro s hs hiso hger
    unfold parse_german_date
    rw [if_neg hs]
    simp only [hiso, Bool.false_eq_true, if_false, hger]

theorem C8_parse_german_date_amended_witness :
    parse_german_date "21.03.2024"
      = (['2', '0', '2', '4'] ++ '-' :: zfill2 ['0', '3']
          ++ '-' :: zfill2 ['2', '1']).asString :=
  C8_parse_german_date_amended.1 "21.03.2024" ['2', '1'] ['0', '3']
    ['2', '0', '2', '4'] [] (by decide) (by decide) (by decide) (by decide)
    (by decide) (by decide) (by decide) (by decide) (by decide) (by decide)

/-- C8 counterexample.  `"21.03.2024 Uhr"` is neither a `DD.MM.YYYY`
date nor ISO-prefixed, so the claim says it passes through unchanged;
the code matches the German PREFIX and returns `"2024-03-21"`. -/
theorem C8_counterexample :
    parse_german_date "21.03.2024 Uhr" = "2024-03-21" ∧
      "2024-03-21" ≠ "21.03.2024 Uhr" :=
  ⟨by decide, by decide⟩

end ZimParser



